import Mathlib

/-!
# ESPL-5C `myshell.c`: job table, history ring buffer, pipeline executor

A shallow embedding of `src/Lab C/myshell.c`.  The C globals become explicit
state; the operating system (waitpid, kill, fork, pipe, chdir) and the parser
of `LineParser.c` become parameters.  Pointers to heap nodes are modelled by
the values they point to: the linked list `process_list` is a `List process`.
Functions that print return the list of what they print.  Command records
carry the identity of their heap record, and the listing tracks which records
`freeCmdLines` has released; a read or a second release of a released record
ends in `Control.Fault`.  The memory of list nodes and history lines and the
descriptor plumbing inside the forked children have no counterpart in the
model.
-/

set_option autoImplicit false

namespace MyShell

/-! ## Constants of `myshell.c` -/

/-- Macro `TERMINATED`: `#define TERMINATED -1`. -/
def TERMINATED : Int := -1

/-- Macro `RUNNING`: `#define RUNNING 1`. -/
def RUNNING : Int := 1

/-- Macro `SUSPENDED`: `#define SUSPENDED 0`. -/
def SUSPENDED : Int := 0

/-- Macro `HISTLEN`: `#define HISTLEN 20`. -/
def HISTLEN : Nat := 20

/-! ## History ring buffer (globals `history`, `newest`, `oldest`, `histCount`) -/

/-- The four history globals.  A slot is `none` while it holds `NULL`. -/
structure HistoryState where
  history : List (Option String)
  newest : Nat
  oldest : Nat
  histCount : Nat
  deriving DecidableEq, Repr

/-- Initial values of the globals: `{NULL}`, `0`, `0`, `0`. -/
def emptyHistory : HistoryState :=
  { history := List.replicate HISTLEN none, newest := 0, oldest := 0, histCount := 0 }

/-- Function `addHistory(cmdline)`: store a copy in slot `newest`, advance `newest`,
count up to `HISTLEN`, and advance `oldest` when `newest` has reached it. -/
def addHistory (h : HistoryState) (cmdline : String) : HistoryState :=
  let history := h.history.set h.newest (some cmdline)
  let newest := (h.newest + 1) % HISTLEN
  let histCount := if h.histCount < HISTLEN then h.histCount + 1 else h.histCount
  let oldest := if newest = h.oldest then (h.oldest + 1) % HISTLEN else h.oldest
  { history := history, newest := newest, oldest := oldest, histCount := histCount }

/-- The slot index `(oldest + n - 1) % HISTLEN` of `executeHistoryCommand`
(both operands are non-negative whenever `1 <= n`). -/
def historyIndex (h : HistoryState) (n : Int) : Nat :=
  (((h.oldest : Int) + n - 1) % (HISTLEN : Int)).toNat

/-- The line `executeHistoryCommand(n)` re-parses: `history[index]` when
`1 <= n <= histCount`, nothing when `n` is out of range. -/
def recallLine (h : HistoryState) (n : Int) : Option String :=
  if n < 1 ∨ n > (h.histCount : Int) then none
  else h.history.getD (historyIndex h n) none

/-- The history after appending `lines`, in order, to the empty history. -/
def appendAll (lines : List String) : HistoryState :=
  lines.foldl addHistory emptyHistory

/-- The lines `"cmd1"`, ..., `"cmd25"` of the spec's scenario. -/
def cmdLines25 : List String :=
  ["cmd1", "cmd2", "cmd3", "cmd4", "cmd5", "cmd6", "cmd7", "cmd8", "cmd9", "cmd10",
   "cmd11", "cmd12", "cmd13", "cmd14", "cmd15", "cmd16", "cmd17", "cmd18", "cmd19", "cmd20",
   "cmd21", "cmd22", "cmd23", "cmd24", "cmd25"]

/-! ## Job table (global `process_list`) -/

/-- Modelled from the spec: the `cmdLine` record of `LineParser.c`, which is not
among the sources.  It carries the fields `myshell.c` reads: the argument
vector, the two optional redirection targets, the blocking flag and the
optional next stage of the pipeline.  The field `obj` names the heap record
itself (which allocation it is), so that one record reached through two
pointers can be told from two records with the same content. -/
structure cmdLine where
  obj : Nat
  arguments : List String
  inputRedirect : Option String
  outputRedirect : Option String
  blocking : Bool
  next : Option cmdLine
  deriving Repr

/-- Record `struct process`: the `next` pointer is the tail of the list holding the node. -/
structure process where
  cmd : cmdLine
  pid : Int
  status : Int
  deriving Repr

/-- What the shell does that can be observed: text written to standard output,
`perror`/`fprintf(stderr, ...)` diagnostics, a row of the job listing
(`index`, `pid`, status label, argument vector), a line of the history
listing and a blocking `waitpid`. -/
inductive Event where
  | printf (text : String)
  | printfPid (format : String) (pid : Int)
  | perror (text : String)
  | row (index : Nat) (pid : Int) (status : Option String) (arguments : List String)
  | historyLine (number : Nat) (line : Option String)
  | waited (pid : Int)
  deriving DecidableEq, Repr

/-- A one-stage command `sleep 100`, held in the heap record `obj`. -/
def sleepCmd (obj : Nat) : cmdLine :=
  { obj := obj, arguments := ["sleep", "100"], inputRedirect := none,
    outputRedirect := none, blocking := false, next := none }

/-- Modelled from the spec: the heap records that `freeCmdLines(cmd)` of
`LineParser.c` (not among the sources) releases: the record itself and,
through `next`, the records of the following stages (a command owns its
next-stage command, and removing a job releases the owned command). -/
def chainObjects : cmdLine → List Nat
  | ⟨obj, _, _, _, _, none⟩ => [obj]
  | ⟨obj, _, _, _, _, some next⟩ => obj :: chainObjects next

/-- Modelled from the spec: the call `freeCmdLines(cmd)` when the records in
`released` have been released before.  It gives the records released
afterwards, or `none` when a record of the chain is among those released
before: the call then reads and frees released memory, which is undefined. -/
def freeCmdLines (released : List Nat) (cmd : cmdLine) : Option (List Nat) :=
  if ∀ o ∈ chainObjects cmd, o ∉ released then some (released ++ chainObjects cmd)
  else none

/-- Function `addProcess(&process_list, cmd, pid)`: a new `RUNNING` node, placed at the
head of an empty list and after the last node otherwise. -/
def addProcess : List process → cmdLine → Int → List process
  | [], cmd, pid => [{ cmd := cmd, pid := pid, status := RUNNING }]
  | current :: rest, cmd, pid => current :: addProcess rest cmd pid

/-- Function `deleteProcess(&process_list, pid)`: unlink the first node whose pid
matches and return; a list without a match is left as it is. -/
def deleteProcess : List process → Int → List process
  | [], _ => []
  | current :: rest, pid =>
    if current.pid = pid then rest else current :: deleteProcess rest pid

/-- The memory side of `deleteProcess(&process_list, pid)`: the call
`freeCmdLines(current->cmd)` for the first node whose pid matches. -/
def deleteProcessFrees (released : List Nat) : List process → Int → Option (List Nat)
  | [], _ => some released
  | current :: rest, pid =>
    if current.pid = pid then freeCmdLines released current.cmd
    else deleteProcessFrees released rest pid

/-- Function `updateProcessStatus(process_list, pid, status)`: overwrite the status of
the first node whose pid matches, then `break`. -/
def updateProcessStatus : List process → Int → Int → List process
  | [], _, _ => []
  | curr :: rest, pid, status =>
    if curr.pid = pid then { curr with status := status } :: rest
    else curr :: updateProcessStatus rest pid status

/-- The answer of `waitpid(pid, &status, WNOHANG)` as `updateProcessList`
tells its cases apart: `-1` with `errno == ECHILD`, `-1` with another `errno`,
`0`, and a pid with `WIFSTOPPED`, `WIFCONTINUED`, or `WIFEXITED || WIFSIGNALED`. -/
inductive WaitResult where
  | noSuchChild
  | otherError
  | noChange
  | stopped
  | continued
  | exitedOrSignaled
  deriving DecidableEq, Repr

/-- The loop of `updateProcessList`: `curr` walks the nodes (first argument,
of which only `pid` and `next` are read, fields that `updateProcessStatus`
never writes) while every update is applied to the list from its head
(second argument). -/
def updateProcessListFrom (waitpid : Int → WaitResult) :
    List process → List process → List process × List Event
  | [], table => (table, [])
  | curr :: rest, table =>
    match waitpid curr.pid with
    | .noSuchChild =>
      updateProcessListFrom waitpid rest (updateProcessStatus table curr.pid TERMINATED)
    | .otherError =>
      let r := updateProcessListFrom waitpid rest table
      (r.1, Event.perror "waitpid failed" :: r.2)
    | .noChange => updateProcessListFrom waitpid rest table
    | .stopped =>
      updateProcessListFrom waitpid rest (updateProcessStatus table curr.pid SUSPENDED)
    | .continued =>
      updateProcessListFrom waitpid rest (updateProcessStatus table curr.pid RUNNING)
    | .exitedOrSignaled =>
      updateProcessListFrom waitpid rest (updateProcessStatus table curr.pid TERMINATED)

/-- Function `updateProcessList(&process_list)`: the reconciled table and the
diagnostics written on the way. -/
def updateProcessList (waitpid : Int → WaitResult) (table : List process) :
    List process × List Event :=
  updateProcessListFrom waitpid table table

/-- The `switch` of `printProcessList`; no case matches another value, and the
label is then left uninitialised. -/
def statusLabel (status : Int) : Option String :=
  if status = RUNNING then some "RUNNING  "
  else if status = SUSPENDED then some "SUSPENDED"
  else if status = TERMINATED then some "TERMINATED"
  else none

/-- How a call leaves the shell process: back in the loop, terminated with an
exit status (`exit`, `_exit`, `return` from `main`), turned into the forked
child that goes on to `execvp` the given stage (it never comes back to the
loop: it becomes the program or exits), or in undefined behaviour (a `NULL`
dereference, a read or a `free` of released memory). -/
inductive Control where
  | Continue
  | Exit (code : Int)
  | Child (stage : cmdLine)
  | Fault
  deriving Repr

/-- What a listing leaves: how it ends, the job table, the command records
released so far, and what was printed. -/
structure Listed where
  control : Control
  process_list : List process
  released : List Nat
  events : List Event

/-- The loop of `printProcessList`: `current` walks the nodes (first
argument), `next` being read before the node is deleted.  For each node the
row is printed, which reads `current->cmd->arguments` and is undefined when
that record has been released; a node whose status is `TERMINATED` then
triggers `deleteProcess(process_list, current->pid)` on the list from its
head (third argument), which releases the command of the node it unlinks.
`deleteProcess` unlinks a node at or before `current`, so the nodes still to
visit are not affected. -/
def printProcessListFrom : List process → Nat → List process → List Nat → Listed
  | [], _, table, released =>
    { control := Control.Continue, process_list := table, released := released, events := [] }
  | current :: rest, index, table, released =>
    if current.cmd.obj ∈ released then
      { control := Control.Fault, process_list := table, released := released, events := [] }
    else
      let row := Event.row index current.pid (statusLabel current.status) current.cmd.arguments
      if current.status = TERMINATED then
        match deleteProcessFrees released table current.pid with
        | none =>
          { control := Control.Fault, process_list := table, released := released,
            events := [row] }
        | some released1 =>
          let r := printProcessListFrom rest (index + 1) (deleteProcess table current.pid)
            released1
          { r with events := row :: r.events }
      else
        let r := printProcessListFrom rest (index + 1) table released
        { r with events := row :: r.events }

/-- Function `printProcessList(&process_list)`: reconcile, print the header, then one
row per node, deleting the terminated ones. -/
def printProcessList (waitpid : Int → WaitResult) (table : List process)
    (released : List Nat) : Listed :=
  let u := updateProcessList waitpid table
  let r := printProcessListFrom u.1 0 u.1 released
  { r with events := u.2 ++ Event.printf "Index\tPID\tStatus\t\tCommand\n" :: r.events }

/-- The status the spec gives an entry after a reconcile pass, from the answer
to the query for its pid and its status before. -/
def statusAfter (r : WaitResult) (old : Int) : Int :=
  match r with
  | .noSuchChild => TERMINATED
  | .otherError => old
  | .noChange => old
  | .stopped => SUSPENDED
  | .continued => RUNNING
  | .exitedOrSignaled => TERMINATED

/-- An entry after a reconcile pass, as the spec describes it: same command
and pid, status by `statusAfter`. -/
def reconcileEntry (waitpid : Int → WaitResult) (e : process) : process :=
  { e with status := statusAfter (waitpid e.pid) e.status }

/-- The diagnostics of a reconcile pass as the spec describes them: one for
each entry whose query fails with an error other than "no such child". -/
def reconcileErrors (waitpid : Int → WaitResult) (table : List process) : List Event :=
  (table.filter fun e => waitpid e.pid = WaitResult.otherError).map
    fun _ => Event.perror "waitpid failed"

/-- The command records that the entries of a table point to, with the
records of their following stages. -/
def ownedObjects (table : List process) : List Nat :=
  (table.map fun e => chainObjects e.cmd).flatten

/-- The answers `waitpid` gives to the call of `updateProcessList`, whose
options are `WNOHANG` alone: a stopped child is reported only under
`WUNTRACED` and a continued child only under `WCONTINUED`. -/
def reportedUnderWNOHANG (r : WaitResult) : Bool :=
  r ≠ WaitResult.stopped && r ≠ WaitResult.continued

/-- The rows of a listing of `table`, numbered from `index`. -/
def listingRows (index : Nat) (table : List process) : List Event :=
  (table.enumFrom index).map fun ie =>
    Event.row ie.1 ie.2.pid (statusLabel ie.2.status) ie.2.cmd.arguments

/-- Function `printHistory()`: line `i + 1` shows the slot `(oldest + i) % HISTLEN`,
for `i` from `0` to `histCount - 1`. -/
def printHistory (h : HistoryState) : List Event :=
  (List.range h.histCount).map fun i =>
    Event.historyLine (i + 1) (h.history.getD ((h.oldest + i) % HISTLEN) none)

/-! ## Pipeline executor and interactive loop -/

/-- The signals the shell sends. -/
inductive Signal where
  | SIGTSTP
  | SIGCONT
  | SIGKILL
  deriving DecidableEq, Repr

/-- What the operating system and `LineParser.c` answer during one iteration
of the loop: whether `kill(pid, sig)` and `chdir(path)` succeed, the answers
of the non-blocking `waitpid` queries, whether `pipe` succeeds, the return
values of the first and the second `fork`, and the parse of a line
(`none` for a `NULL` result). -/
structure OS where
  kill : Int → Signal → Bool
  chdir : List Char → Bool
  waitpid : Int → WaitResult
  pipe : Bool
  fork1 : Int
  fork2 : Int
  parseCmdLines : String → Option cmdLine

/-- The globals of `myshell.c` that the loop mutates, and the command records
released so far. -/
structure Shell where
  process_list : List process
  hist : HistoryState
  released : List Nat
  deriving Repr

/-- Function `execute(pCmdLine, &process_list)` as seen by the process that calls it.
`pipe` is only attempted when there is a next stage and `fork2` only when the
pipe was created.  The child branches set up descriptors and call `execvp`;
they are cut off at `Control.Child`. -/
def execute (pipeOk : Bool) (fork1 fork2 : Int) (pCmdLine : cmdLine) (table : List process) :
    Control × List process × List Event :=
  if pCmdLine.next.isSome && !pipeOk then (Control.Exit 1, table, [Event.perror "pipe"])
  else if fork1 = -1 then (Control.Exit 1, table, [Event.printf "fork failed\n"])
  else if fork1 = 0 then (Control.Child pCmdLine, table, [])
  else
    let table1 := addProcess table pCmdLine fork1
    match pCmdLine.next with
    | some next =>
      if fork2 = -1 then (Control.Exit 1, table1, [Event.perror "fork failed\n"])
      else if fork2 = 0 then (Control.Child next, table1, [])
      else
        (Control.Continue, addProcess table1 next fork2,
          if next.blocking then [Event.waited fork1, Event.waited fork2] else [])
    | none =>
      (Control.Continue, table1, if pCmdLine.blocking then [Event.waited fork1] else [])

/-- Function `executeHistoryCommand(n, &process_list)`.  In range, the slot is parsed,
appended to the history again and executed.  (When the slot is the one
`addHistory` is about to overwrite, the C code frees the text before copying
it; the model copies the text as it was.) -/
def executeHistoryCommand (os : OS) (n : Int) (s : Shell) : Control × Shell × List Event :=
  if n < 1 ∨ n > (s.hist.histCount : Int) then
    (Control.Continue, s, [Event.printf "Command not in history.\n"])
  else
    match s.hist.history.getD (historyIndex s.hist n) none with
    | none => (Control.Fault, s, [])
    | some text =>
      let hist := addHistory s.hist text
      match os.parseCmdLines text with
      | none => (Control.Fault, { s with hist := hist }, [])
      | some line =>
        let r := execute os.pipe os.fork1 os.fork2 line s.process_list
        (r.1, { s with process_list := r.2.1, hist := hist }, r.2.2)

/-- The test `strncmp(input, word, strlen(word)) == 0`: `word` starts `input`. -/
def startsWith (input word : String) : Bool :=
  word.toList.isPrefixOf input.toList

/-- The digits part of `atoi`. -/
def atoiDigits : Int → List Char → Int
  | acc, [] => acc
  | acc, c :: cs =>
    if c.isDigit then atoiDigits (acc * 10 + ((c.toNat : Int) - 48)) cs else acc

/-- The number `strtol` reads: skip white space, read an optional sign, then
decimal digits; `0` when there are none. -/
def strtolValue (text : List Char) : Int :=
  match text.dropWhile (fun c => c.toNat = 32 || (9 ≤ c.toNat && c.toNat ≤ 13)) with
  | '-' :: cs => - atoiDigits 0 cs
  | '+' :: cs => atoiDigits 0 cs
  | cs => atoiDigits 0 cs

/-- Conversion of a `long` to the 32-bit `int` that `int pid` and `int n` hold. -/
def toInt32 (v : Int) : Int :=
  (v + 2147483648) % 4294967296 - 2147483648

/-- The C library's `atoi`, as glibc computes it (`(int) strtol(text, NULL, 10)`):
the number read, held to the range of a 64-bit `long`, converted to `int`.
In the range of `int` it is the number read. -/
def atoi (text : List Char) : Int :=
  toInt32 (max (-9223372036854775808) (min (strtolValue text) 9223372036854775807))

/-- A C string in memory: the bytes up to the first terminator. -/
def cString (bytes : List Char) : List Char :=
  bytes.takeWhile (fun c => c.toNat ≠ 0)

/-- The text at `input + offset`, where `behind` holds the bytes of the buffer
`input[2048]` behind the terminator of the line.  Up to the terminator it is
the rest of the line; one byte further (`suspend`, `wake`, `kill` or `cd` with
nothing after the word) it is whatever string starts in `behind`: the empty
one when the line ended in a newline, since `fgets` wrote its terminator
there, and bytes left from earlier otherwise. -/
def inputFrom (input : String) (behind : List Char) (offset : Nat) : List Char :=
  if offset ≤ input.length then input.toList.drop offset
  else cString (behind.drop (offset - (input.length + 1)))

/-- The branch of the `if`/`else if` chain of `main` that a line takes. -/
inductive Directive where
  | quit
  | cd
  | suspend
  | wake
  | kill
  | procs
  | history
  | bangBang
  | bang
  | command
  deriving DecidableEq, Repr

/-- The chain of `strncmp` tests of `main`, in source order. -/
def dispatch (input : String) : Directive :=
  if startsWith input "quit" then Directive.quit
  else if startsWith input "cd" then Directive.cd
  else if startsWith input "suspend" then Directive.suspend
  else if startsWith input "wake" then Directive.wake
  else if startsWith input "kill" then Directive.kill
  else if startsWith input "procs" then Directive.procs
  else if startsWith input "history" then Directive.history
  else if startsWith input "!!" then Directive.bangBang
  else if startsWith input "!" then Directive.bang
  else Directive.command

/-- One iteration of the `while (1)` loop of `main`, from the line read
(newline already cut off, `behind` being the bytes of the buffer behind its
terminator) to the next prompt or to the end of the process.  The prompt with
the working directory and the message for a failed `fgets` are left out. -/
def mainStep (os : OS) (input : String) (behind : List Char) (s : Shell) :
    Control × Shell × List Event :=
  match dispatch input with
  | Directive.quit => (Control.Exit 0, s, [])
  | Directive.cd =>
    if os.chdir (inputFrom input behind 3) then (Control.Continue, s, [])
    else (Control.Continue, s, [Event.perror "cd failed\n"])
  | Directive.suspend =>
    let pid := atoi (inputFrom input behind 8)
    if os.kill pid Signal.SIGTSTP then
      (Control.Continue,
        { s with process_list := updateProcessStatus s.process_list pid SUSPENDED },
        [Event.printfPid "Process with PID %d suspended\n" pid])
    else (Control.Exit 1, s, [Event.perror "kill(SIGTSTP) failed\n"])
  | Directive.wake =>
    let pid := atoi (inputFrom input behind 5)
    if os.kill pid Signal.SIGCONT then
      (Control.Continue,
        { s with process_list := updateProcessStatus s.process_list pid RUNNING },
        [Event.printfPid "Process with PID %d woke up\n" pid])
    else (Control.Exit 1, s, [Event.perror "kill(SIGCONT) failed\n"])
  | Directive.kill =>
    let pid := atoi (inputFrom input behind 5)
    if os.kill pid Signal.SIGKILL then
      (Control.Continue,
        { s with process_list := updateProcessStatus s.process_list pid TERMINATED },
        [Event.printfPid "Process with PID %d killed\n" pid])
    else (Control.Exit 1, s, [Event.perror "kill(SIGKILL) failed\n"])
  | Directive.procs =>
    let r := printProcessList os.waitpid s.process_list s.released
    (r.control, { s with process_list := r.process_list, released := r.released }, r.events)
  | Directive.history => (Control.Continue, s, printHistory s.hist)
  | Directive.bangBang =>
    if s.hist.histCount = 0 then
      (Control.Continue, s, [Event.printf "No commands in history.\n"])
    else executeHistoryCommand os (s.hist.histCount : Int) s
  | Directive.bang => executeHistoryCommand os (atoi (inputFrom input behind 1)) s
  | Directive.command =>
    let hist := addHistory s.hist input
    match os.parseCmdLines input with
    | none => (Control.Fault, { s with hist := hist }, [])
    | some line =>
      let r := execute os.pipe os.fork1 os.fork2 line s.process_list
      (r.1, { s with process_list := r.2.1, hist := hist }, r.2.2)

/-- An operating system in which every `kill` fails; forks return the pids 100
and 101 and every line parses to `sleep 100`. -/
def failingKillOS : OS :=
  { kill := fun _ _ => false, chdir := fun _ => true,
    waitpid := fun _ => WaitResult.noChange, pipe := true, fork1 := 100, fork2 := 101,
    parseCmdLines := fun _ => some (sleepCmd 7) }

/-- An operating system in which every `kill` succeeds; forks return the pids
100 and 101 and every line parses to `sleep 100`. -/
def successfulKillOS : OS :=
  { kill := fun _ _ => true, chdir := fun _ => true,
    waitpid := fun _ => WaitResult.noChange, pipe := true, fork1 := 100, fork2 := 101,
    parseCmdLines := fun _ => some (sleepCmd 7) }

/-- A shell tracking one running job with pid 5. -/
def oneJobShell : Shell :=
  { process_list := [{ cmd := sleepCmd 1, pid := 5, status := RUNNING }],
    hist := emptyHistory, released := [] }

/-- The pids of a job table, in list order. -/
def pids (table : List process) : List Int := table.map process.pid

/-- One operation of the job table's interface. -/
inductive TableOp where
  | add (cmd : cmdLine) (pid : Int)
  | remove (pid : Int)

/-- Apply one operation (`addProcess` or `deleteProcess`). -/
def applyOp (table : List process) : TableOp → List process
  | .add cmd pid => addProcess table cmd pid
  | .remove pid => deleteProcess table pid

/-- Apply a sequence of operations, first to last. -/
def applyOps (table : List process) (ops : List TableOp) : List process :=
  ops.foldl applyOp table

/-- Every `add` of the sequence uses a pid that the table does not hold at
that moment (what `fork` gives for children that are still tracked). -/
def addsFresh : List process → List TableOp → Bool
  | _, [] => true
  | table, .add cmd pid :: ops =>
    decide (pid ∉ pids table) && addsFresh (addProcess table cmd pid) ops
  | table, .remove pid :: ops => addsFresh (deleteProcess table pid) ops


/-- A table of six jobs with pids 11 .. 16. -/
def sixJobs : List process :=
  [{ cmd := sleepCmd 1, pid := 11, status := RUNNING },
   { cmd := sleepCmd 2, pid := 12, status := SUSPENDED },
   { cmd := sleepCmd 3, pid := 13, status := RUNNING },
   { cmd := sleepCmd 4, pid := 14, status := RUNNING },
   { cmd := sleepCmd 5, pid := 15, status := SUSPENDED },
   { cmd := sleepCmd 6, pid := 16, status := RUNNING }]

/-- One answer of each kind, for the pids 11 .. 16. -/
def sixAnswers (pid : Int) : WaitResult :=
  if pid = 11 then WaitResult.noSuchChild
  else if pid = 12 then WaitResult.otherError
  else if pid = 13 then WaitResult.noChange
  else if pid = 14 then WaitResult.stopped
  else if pid = 15 then WaitResult.continued
  else WaitResult.exitedOrSignaled

/-- The two-stage command `ls -l | tail -n 2` of `mypipeline.c`. -/
def lsTailPipeline : cmdLine :=
  { obj := 1, arguments := ["ls", "-l"], inputRedirect := none, outputRedirect := none,
    blocking := true,
    next := some { obj := 2, arguments := ["tail", "-n", "2"], inputRedirect := none,
                   outputRedirect := none, blocking := true, next := none } }

/-- The job table that `execute` leaves for `ls -l | tail -n 2` on an empty
table when the forks return 100 and 101. -/
def pipelineJobs : List process :=
  (execute true 100 101 lsTailPipeline []).2.1

/-- An operating system in which every tracked child has exited and has been
waited for (as `execute` does for a blocking pipeline), so that the
non-blocking query finds no such child. -/
def allExitedOS : OS :=
  { kill := fun _ _ => true, chdir := fun _ => true,
    waitpid := fun _ => WaitResult.noSuchChild, pipe := true, fork1 := 100,
    fork2 := 101, parseCmdLines := fun _ => some (sleepCmd 7) }

/-- A history holding the three lines `ls`, `pwd`, `date`. -/
def threeLineShell : Shell :=
  { process_list := [{ cmd := sleepCmd 1, pid := 5, status := RUNNING }],
    hist := appendAll ["ls", "pwd", "date"], released := [] }

/-! ## History lemmas -/

theorem recallLine_succ (h : HistoryState) (k : Nat) (hk : k < h.histCount) :
    recallLine h ((k : Int) + 1) = h.history.getD ((h.oldest + k) % HISTLEN) none := by
  unfold recallLine historyIndex
  rw [if_neg (by omega)]
  have e : ((h.oldest : Int) + ((k : Int) + 1) - 1) % (HISTLEN : Int)
      = (((h.oldest + k) % HISTLEN : Nat) : Int) := by
    push_cast
    congr 1
    ring
  rw [e, Int.toNat_ofNat]

theorem recallLine_none (h : HistoryState) (n : Int) (hn : n < 1 ∨ n > (h.histCount : Int)) :
    recallLine h n = none := by
  unfold recallLine
  rw [if_pos hn]

theorem executeHistoryCommand_in_range (os : OS) (n : Int) (s : Shell)
    (h : 1 ≤ n ∧ n ≤ (s.hist.histCount : Int)) :
    executeHistoryCommand os n s =
      match recallLine s.hist n with
      | none => (Control.Fault, s, [])
      | some text =>
        match os.parseCmdLines text with
        | none => (Control.Fault, { s with hist := addHistory s.hist text }, [])
        | some line =>
          ((execute os.pipe os.fork1 os.fork2 line s.process_list).1,
            { s with
              process_list := (execute os.pipe os.fork1 os.fork2 line s.process_list).2.1,
              hist := addHistory s.hist text },
            (execute os.pipe os.fork1 os.fork2 line s.process_list).2.2) := by
  have hn : ¬ (n < 1 ∨ n > (s.hist.histCount : Int)) := by omega
  simp only [executeHistoryCommand, recallLine, if_neg hn]

theorem recallLine_some_range (h : HistoryState) (n : Int) (s : String)
    (hs : recallLine h n = some s) : ∃ k : Nat, k < h.histCount ∧ n = (k : Int) + 1 := by
  by_cases hn : n < 1 ∨ n > (h.histCount : Int)
  · rw [recallLine_none h n hn] at hs
    cases hs
  · refine ⟨(n - 1).toNat, ?_, ?_⟩ <;> omega

theorem appendAll_21 (a0 a1 a2 a3 a4 a5 a6 a7 a8 a9 a10 a11 a12 a13 a14 a15
    a16 a17 a18 a19 a20 : String) :
    appendAll [a0, a1, a2, a3, a4, a5, a6, a7, a8, a9, a10, a11, a12, a13, a14, a15,
      a16, a17, a18, a19, a20] =
      { history := [some a20, some a1, some a2, some a3, some a4, some a5, some a6, some a7,
          some a8, some a9, some a10, some a11, some a12, some a13, some a14, some a15,
          some a16, some a17, some a18, some a19],
        newest := 1, oldest := 2, histCount := 20 } := by
  simp [appendAll, addHistory, emptyHistory, HISTLEN, List.replicate]

theorem appendAll_21_recall (lines : List String) (hlen : lines.length = 21)
    (hnd : lines.Nodup) :
    (appendAll lines).histCount = 20 ∧
    (∀ s : String, (∃ n : Int, recallLine (appendAll lines) n = some s) ↔ s ∈ lines.drop 1) ∧
    (∀ n : Int, recallLine (appendAll lines) n ≠ lines.head?) := by
  iterate 21 (rcases lines with _ | ⟨_, lines⟩; · simp at hlen)
  rcases lines with _ | ⟨_, lines⟩
  swap; · simp at hlen
  rename_i a0 a1 a2 a3 a4 a5 a6 a7 a8 a9 a10 a11 a12 a13 a14 a15 a16 a17 a18 a19 a20
  rw [appendAll_21]
  refine ⟨rfl, ?_, ?_⟩
  · intro s
    constructor
    · rintro ⟨n, hn⟩
      obtain ⟨k, hk, rfl⟩ := recallLine_some_range _ n s hn
      rw [recallLine_succ _ k hk] at hn
      simp only at hk
      dsimp only [HISTLEN] at hn
      interval_cases k <;> simp at hn <;> simp [hn]
    · intro hs
      obtain ⟨k, hk, rfl⟩ := List.mem_iff_getElem.mp hs
      simp at hk
      refine ⟨((if k = 0 then 19 else k - 1 : Nat) : Int) + 1, ?_⟩
      rw [recallLine_succ _ _ (by simp only; split <;> omega)]
      dsimp only [HISTLEN]
      interval_cases k <;> simp
  · intro n hn
    obtain ⟨k, hk, rfl⟩ := recallLine_some_range _ n _ hn
    rw [recallLine_succ _ k hk] at hn
    simp only at hk
    simp at hnd
    dsimp only [HISTLEN] at hn
    interval_cases k <;> simp at hn <;> simp_all

/-! ## Job table lemmas -/

theorem addProcess_eq_append (table : List process) (cmd : cmdLine) (pid : Int) :
    addProcess table cmd pid = table ++ [{ cmd := cmd, pid := pid, status := RUNNING }] := by
  induction table with
  | nil => rfl
  | cons c rest ih => simp [addProcess, ih]

theorem deleteProcess_cons (c : process) (rest : List process) (pid : Int) :
    deleteProcess (c :: rest) pid =
      if c.pid = pid then rest else c :: deleteProcess rest pid := rfl

theorem updateProcessStatus_cons (c : process) (rest : List process) (pid status : Int) :
    updateProcessStatus (c :: rest) pid status =
      if c.pid = pid then { c with status := status } :: rest
      else c :: updateProcessStatus rest pid status := rfl

theorem deleteProcess_split (l1 : List process) (e : process) (l2 : List process) (pid : Int)
    (h1 : ∀ x ∈ l1, x.pid ≠ pid) (he : e.pid = pid) :
    deleteProcess (l1 ++ e :: l2) pid = l1 ++ l2 := by
  induction l1 with
  | nil => simp [deleteProcess, he]
  | cons c rest ih =>
    have hc : c.pid ≠ pid := h1 c (List.mem_cons_self _ _)
    have ih2 := ih (fun x hx => h1 x (List.mem_cons_of_mem _ hx))
    rw [List.cons_append, deleteProcess_cons, if_neg hc, ih2, List.cons_append]

theorem deleteProcess_sublist (table : List process) (pid : Int) :
    (deleteProcess table pid).Sublist table := by
  induction table with
  | nil => exact List.Sublist.refl _
  | cons c rest ih =>
    simp only [deleteProcess]
    split
    · exact List.sublist_cons_self _ _
    · exact ih.cons₂ _

theorem pids_deleteProcess_nodup (table : List process) (pid : Int)
    (h : (pids table).Nodup) : (pids (deleteProcess table pid)).Nodup :=
  List.Nodup.sublist ((deleteProcess_sublist table pid).map _) h

theorem pids_addProcess_nodup (table : List process) (cmd : cmdLine) (pid : Int)
    (h : (pids table).Nodup) (hf : pid ∉ pids table) :
    (pids (addProcess table cmd pid)).Nodup := by
  rw [addProcess_eq_append]
  simp only [pids, List.map_append, List.map_cons, List.map_nil]
  rw [List.nodup_append]
  refine ⟨h, List.nodup_singleton _, ?_⟩
  intro a ha hb
  simp at hb
  subst hb
  exact hf ha

theorem applyOps_nodup (ops : List TableOp) (table : List process)
    (h : (pids table).Nodup) (hf : addsFresh table ops = true) :
    (pids (applyOps table ops)).Nodup := by
  induction ops generalizing table with
  | nil => exact h
  | cons op ops ih =>
    cases op with
    | add cmd pid =>
      simp only [addsFresh, Bool.and_eq_true, decide_eq_true_eq] at hf
      exact ih _ (pids_addProcess_nodup table cmd pid h hf.1) hf.2
    | remove pid =>
      simp only [addsFresh] at hf
      exact ih _ (pids_deleteProcess_nodup table pid h) hf

theorem addsFresh_take (ops : List TableOp) (table : List process) (k : Nat)
    (hf : addsFresh table ops = true) : addsFresh table (ops.take k) = true := by
  induction ops generalizing table k with
  | nil => simpa using hf
  | cons op ops ih =>
    cases k with
    | zero => rfl
    | succ k =>
      cases op with
      | add cmd pid =>
        simp only [addsFresh, Bool.and_eq_true, decide_eq_true_eq] at hf
        simp only [List.take_succ_cons, addsFresh, Bool.and_eq_true, decide_eq_true_eq]
        exact ⟨hf.1, ih _ k hf.2⟩
      | remove pid =>
        simp only [addsFresh] at hf
        simp only [List.take_succ_cons, addsFresh]
        exact ih _ k hf

/-! ## Reconcile pass -/

theorem reconcileEntry_pid (q : Int → WaitResult) (e : process) :
    (reconcileEntry q e).pid = e.pid := rfl

theorem pids_map_reconcileEntry (q : Int → WaitResult) (l : List process) :
    pids (l.map (reconcileEntry q)) = pids l := by
  simp [pids, Function.comp_def, reconcileEntry_pid]

theorem updateProcessStatus_split (l1 : List process) (e : process) (l2 : List process)
    (pid status : Int) (h1 : ∀ x ∈ l1, x.pid ≠ pid) (he : e.pid = pid) :
    updateProcessStatus (l1 ++ e :: l2) pid status
      = l1 ++ { e with status := status } :: l2 := by
  induction l1 with
  | nil => simp [updateProcessStatus, he]
  | cons c rest ih =>
    have hc : c.pid ≠ pid := h1 c (List.mem_cons_self _ _)
    have ih2 := ih (fun x hx => h1 x (List.mem_cons_of_mem _ hx))
    rw [List.cons_append, updateProcessStatus_cons, if_neg hc, ih2, List.cons_append]

theorem pid_not_among_earlier (pre : List process) (c : process) (rest : List process)
    (hnd : (pids (pre ++ c :: rest)).Nodup) : ∀ x ∈ pre, x.pid ≠ c.pid := by
  intro x hx hxc
  simp only [pids, List.map_append, List.map_cons] at hnd
  rw [List.nodup_append] at hnd
  exact hnd.2.2 (List.mem_map_of_mem _ hx) (by rw [hxc]; exact List.mem_cons_self _ _)

theorem updateProcessListFrom_spec (q : Int → WaitResult) (suf pre : List process)
    (hnd : (pids (pre ++ suf)).Nodup) :
    updateProcessListFrom q suf (pre ++ suf)
      = (pre ++ suf.map (reconcileEntry q), reconcileErrors q suf) := by
  induction suf generalizing pre with
  | nil => simp [updateProcessListFrom, reconcileErrors]
  | cons c rest ih =>
    have hpre := pid_not_among_earlier pre c rest hnd
    have hnd2 : ∀ c2 : process, c2.pid = c.pid → (pids ((pre ++ [c2]) ++ rest)).Nodup := by
      intro c2 h2
      have e : pids ((pre ++ [c2]) ++ rest) = pids (pre ++ c :: rest) := by
        simp [pids, h2]
      rw [e]
      exact hnd
    have hupd : ∀ st : Int, updateProcessStatus (pre ++ c :: rest) c.pid st
        = (pre ++ [{ c with status := st }]) ++ rest := by
      intro st
      rw [updateProcessStatus_split pre c rest c.pid st hpre rfl]
      simp
    have hsame : pre ++ c :: rest = (pre ++ [c]) ++ rest := by simp
    have step : ∀ c2 : process, c2.pid = c.pid →
        updateProcessListFrom q rest ((pre ++ [c2]) ++ rest)
          = ((pre ++ [c2]) ++ rest.map (reconcileEntry q), reconcileErrors q rest) :=
      fun c2 h2 => ih (pre ++ [c2]) (hnd2 c2 h2)
    unfold updateProcessListFrom
    cases hq : q c.pid <;> simp only
    · rw [hupd, step { c with status := TERMINATED } rfl]
      simp [reconcileEntry, statusAfter, reconcileErrors, hq]
    · rw [hsame, step c rfl]
      simp [reconcileEntry, statusAfter, reconcileErrors, hq]
    · rw [hsame, step c rfl]
      simp [reconcileEntry, statusAfter, reconcileErrors, hq]
    · rw [hupd, step { c with status := SUSPENDED } rfl]
      simp [reconcileEntry, statusAfter, reconcileErrors, hq]
    · rw [hupd, step { c with status := RUNNING } rfl]
      simp [reconcileEntry, statusAfter, reconcileErrors, hq]
    · rw [hupd, step { c with status := TERMINATED } rfl]
      simp [reconcileEntry, statusAfter, reconcileErrors, hq]

theorem updateProcessList_eq (q : Int → WaitResult) (table : List process)
    (hnd : (pids table).Nodup) :
    updateProcessList q table = (table.map (reconcileEntry q), reconcileErrors q table) := by
  have h := updateProcessListFrom_spec q table [] (by simpa using hnd)
  simpa [updateProcessList] using h

/-! ## Listing -/

theorem chainObjects_head (c : cmdLine) : c.obj ∈ chainObjects c := by
  cases c with
  | mk o a i ou b n => cases n <;> simp [chainObjects]

theorem ownedObjects_cons (c : process) (rest : List process) :
    ownedObjects (c :: rest) = chainObjects c.cmd ++ ownedObjects rest := by
  simp [ownedObjects]

theorem ownedObjects_map_reconcileEntry (q : Int → WaitResult) (table : List process) :
    ownedObjects (table.map (reconcileEntry q)) = ownedObjects table := by
  simp [ownedObjects, Function.comp_def, reconcileEntry]

theorem deleteProcessFrees_split (released : List Nat) (l1 : List process) (e : process)
    (l2 : List process) (pid : Int) (h1 : ∀ x ∈ l1, x.pid ≠ pid) (he : e.pid = pid) :
    deleteProcessFrees released (l1 ++ e :: l2) pid = freeCmdLines released e.cmd := by
  induction l1 with
  | nil => simp [deleteProcessFrees, he]
  | cons c rest ih =>
    have hc : c.pid ≠ pid := h1 c (List.mem_cons_self _ _)
    have ih2 := ih (fun x hx => h1 x (List.mem_cons_of_mem _ hx))
    simp only [List.cons_append, deleteProcessFrees, if_neg hc]
    exact ih2

theorem printProcessListFrom_spec (suf kept : List process) (index : Nat)
    (released : List Nat) (hnd : (pids (kept ++ suf)).Nodup)
    (hown : (ownedObjects suf).Nodup) (hrel : ∀ o ∈ ownedObjects suf, o ∉ released) :
    printProcessListFrom suf index (kept ++ suf) released
      = { control := Control.Continue,
          process_list := kept ++ suf.filter (fun e => decide (e.status ≠ TERMINATED)),
          released := released
            ++ ownedObjects (suf.filter (fun e => decide (e.status = TERMINATED))),
          events := listingRows index suf } := by
  induction suf generalizing kept index released with
  | nil => simp [printProcessListFrom, listingRows, ownedObjects]
  | cons c rest ih =>
    have hpre := pid_not_among_earlier kept c rest hnd
    rw [ownedObjects_cons] at hown hrel
    have hown2 : (ownedObjects rest).Nodup := (List.nodup_append.mp hown).2.1
    have hdisj : ∀ o ∈ chainObjects c.cmd, o ∉ ownedObjects rest :=
      fun o ho ho2 => (List.nodup_append.mp hown).2.2 ho ho2
    have hobj : c.cmd.obj ∉ released :=
      hrel _ (List.mem_append_left _ (chainObjects_head c.cmd))
    have hchain : ∀ o ∈ chainObjects c.cmd, o ∉ released :=
      fun o ho => hrel o (List.mem_append_left _ ho)
    unfold printProcessListFrom
    rw [if_neg hobj]
    by_cases hc : c.status = TERMINATED
    · have hnd2 : (pids (kept ++ rest)).Nodup := by
        refine List.Nodup.sublist ?_ hnd
        exact (List.Sublist.append_left (List.sublist_cons_self c rest) kept).map _
      have hrel2 : ∀ o ∈ ownedObjects rest, o ∉ released ++ chainObjects c.cmd := by
        intro o ho hmem
        rcases List.mem_append.mp hmem with h | h
        · exact hrel o (List.mem_append_right _ ho) h
        · exact hdisj o h ho
      simp only [if_pos hc]
      rw [deleteProcessFrees_split released kept c rest c.pid hpre rfl]
      simp only [freeCmdLines, if_pos hchain]
      rw [deleteProcess_split kept c rest c.pid hpre rfl, ih kept (index + 1) _ hnd2 hown2 hrel2]
      simp [listingRows, List.enumFrom, hc, ownedObjects_cons]
    · have hnd2 : (pids ((kept ++ [c]) ++ rest)).Nodup := by simpa using hnd
      have hsame : kept ++ c :: rest = (kept ++ [c]) ++ rest := by simp
      have hrel2 : ∀ o ∈ ownedObjects rest, o ∉ released :=
        fun o ho => hrel o (List.mem_append_right _ ho)
      simp only [if_neg hc]
      rw [hsame, ih (kept ++ [c]) (index + 1) released hnd2 hown2 hrel2]
      simp [listingRows, List.enumFrom, hc]

/-- Where no command record is shared between entries and none has been
released, the listing goes through: one row per reconciled entry, the
entries found `TERMINATED` purged and their commands released. -/
theorem printProcessList_separate_commands (q : Int → WaitResult) (table : List process)
    (released : List Nat) (hnd : (pids table).Nodup)
    (hown : (ownedObjects table).Nodup) (hrel : ∀ o ∈ ownedObjects table, o ∉ released) :
    printProcessList q table released
      = { control := Control.Continue,
          process_list :=
            (table.map (reconcileEntry q)).filter (fun e => decide (e.status ≠ TERMINATED)),
          released := released ++ ownedObjects
            ((table.map (reconcileEntry q)).filter (fun e => decide (e.status = TERMINATED))),
          events := reconcileErrors q table
            ++ Event.printf "Index\tPID\tStatus\t\tCommand\n" ::
              listingRows 0 (table.map (reconcileEntry q)) } := by
  unfold printProcessList
  rw [updateProcessList_eq q table hnd]
  have h := printProcessListFrom_spec (table.map (reconcileEntry q)) [] 0 released
    (by simpa [pids_map_reconcileEntry] using hnd)
    (by rw [ownedObjects_map_reconcileEntry]; exact hown)
    (by rw [ownedObjects_map_reconcileEntry]; exact hrel)
  simp only [List.nil_append] at h
  simp only [h]

/-! ## Status updates on a terminated entry -/

theorem updateProcessStatus_getElem_of_ne (table : List process) (i : Nat) (e : process)
    (pid status : Int) (hi : table[i]? = some e) (hne : pid ≠ e.pid ∨ status = e.status) :
    (updateProcessStatus table pid status)[i]? = some e := by
  induction table generalizing i with
  | nil => simp at hi
  | cons c rest ih =>
    rw [updateProcessStatus_cons]
    cases i with
    | zero =>
      simp only [List.getElem?_cons_zero, Option.some.injEq] at hi
      subst hi
      split
      · rename_i hc
        rcases hne with h | h
        · exact absurd hc.symm h
        · simp [h]
      · simp
    | succ i =>
      simp only [List.getElem?_cons_succ] at hi
      split
      · simpa using hi
      · simpa using ih i hi

theorem updateProcessListFrom_keeps (q : Int → WaitResult) (nodes table : List process)
    (i : Nat) (e : process) (hi : table[i]? = some e) (ht : e.status = TERMINATED)
    (hs : q e.pid ≠ WaitResult.stopped) (hc : q e.pid ≠ WaitResult.continued) :
    (updateProcessListFrom q nodes table).1[i]? = some e := by
  induction nodes generalizing table with
  | nil => simpa [updateProcessListFrom] using hi
  | cons c rest ih =>
    have key : ∀ st : Int, (c.pid = e.pid → st = TERMINATED) →
        (updateProcessStatus table c.pid st)[i]? = some e := by
      intro st hst
      apply updateProcessStatus_getElem_of_ne table i e c.pid st hi
      by_cases h : c.pid = e.pid
      · exact Or.inr ((hst h).trans ht.symm)
      · exact Or.inl h
    unfold updateProcessListFrom
    cases hq : q c.pid <;> simp only
    · exact ih _ (key _ (fun _ => rfl))
    · exact ih _ hi
    · exact ih _ hi
    · exact ih _ (key _ (fun h => absurd (h ▸ hq) hs))
    · exact ih _ (key _ (fun h => absurd (h ▸ hq) hc))
    · exact ih _ (key _ (fun _ => rfl))

/-! ## Claims -/

/-- C1: the code departs from the claim.  After appending `"cmd1"` .. `"cmd25"`
to the empty history the slots hold `"cmd6"` .. `"cmd25"`, so `"cmd6"` is the
oldest surviving line and `"cmd25"` the newest; yet `recall(1)` selects the
slot holding `"cmd7"` and `recall(20)` the slot holding `"cmd6"`.  The shift
starts with the 20th append, which advances `oldest` although no line has been
evicted: after `"cmd1"` .. `"cmd20"` all twenty lines are stored, `oldest` is
1, `recall(1)` is `"cmd2"` and `recall(20)` is `"cmd1"`. -/
theorem recall_shifted_once_full :
    (appendAll cmdLines25).history
      = (cmdLines25.drop 20 ++ (cmdLines25.drop 5).take 15).map some ∧
    (appendAll cmdLines25).histCount = 20 ∧
    (appendAll cmdLines25).oldest = 6 ∧
    recallLine (appendAll cmdLines25) 1 = some "cmd7" ∧
    recallLine (appendAll cmdLines25) 20 = some "cmd6" ∧
    (appendAll (cmdLines25.take 20)).history = (cmdLines25.take 20).map some ∧
    (appendAll (cmdLines25.take 20)).histCount = 20 ∧
    (appendAll (cmdLines25.take 20)).oldest = 1 ∧
    recallLine (appendAll (cmdLines25.take 20)) 1 = some "cmd2" ∧
    recallLine (appendAll (cmdLines25.take 20)) 20 = some "cmd1" := by
  refine ⟨?_, ?_, ?_, ?_, ?_, ?_, ?_, ?_, ?_, ?_⟩ <;> decide

/-- C2: on a table with pairwise distinct pids, `updateProcessList` keeps the
number, order, pids and commands of the entries; an entry's status becomes
`TERMINATED` on no-such-child, stays as it was on another error and on no
change, becomes `SUSPENDED` on stopped, `RUNNING` on continued and
`TERMINATED` on exited-or-signaled.  One diagnostic is written per entry whose
query fails with another error. -/
theorem updateProcessList_reconciles (q : Int → WaitResult) (table : List process)
    (hnd : (pids table).Nodup) :
    (updateProcessList q table).1 = table.map (reconcileEntry q) ∧
    (updateProcessList q table).1.length = table.length ∧
    (∀ (i : Nat) (e : process), table[i]? = some e →
      ∃ e2, (updateProcessList q table).1[i]? = some e2 ∧ e2.cmd = e.cmd ∧ e2.pid = e.pid ∧
        (q e.pid = WaitResult.noSuchChild → e2.status = TERMINATED) ∧
        (q e.pid = WaitResult.otherError → e2.status = e.status) ∧
        (q e.pid = WaitResult.noChange → e2.status = e.status) ∧
        (q e.pid = WaitResult.stopped → e2.status = SUSPENDED) ∧
        (q e.pid = WaitResult.continued → e2.status = RUNNING) ∧
        (q e.pid = WaitResult.exitedOrSignaled → e2.status = TERMINATED)) ∧
    (updateProcessList q table).2 = reconcileErrors q table := by
  rw [updateProcessList_eq q table hnd]
  refine ⟨rfl, by simp, ?_, rfl⟩
  intro i e hi
  refine ⟨reconcileEntry q e, by simp [hi], rfl, rfl, ?_⟩
  refine ⟨?_, ?_, ?_, ?_, ?_, ?_⟩ <;> intro h <;> simp [reconcileEntry, statusAfter, h]

/-- Witness for C2: six jobs, one answer of each kind. -/
theorem updateProcessList_reconciles_witness :
    (pids sixJobs).Nodup ∧
    (updateProcessList sixAnswers sixJobs).1 = sixJobs.map (reconcileEntry sixAnswers) ∧
    (updateProcessList sixAnswers sixJobs).1.map process.status
      = [TERMINATED, SUSPENDED, RUNNING, SUSPENDED, RUNNING, TERMINATED] :=
  ⟨by decide, (updateProcessList_reconciles sixAnswers sixJobs (by decide)).1, by decide⟩

/-- C3: the code departs from the claim.  For the pipeline `ls -l | tail -n 2`
`execute` leaves two entries with the distinct pids 100 and 101, the second
holding the record that is the `next` of the first entry's command.  Once both
children have exited (whether `execute` has waited for them or the query now
reports their exit), `printProcessList` prints the row of the first entry and
deletes it, which releases both records; the row of the second entry is then
read from a released record (and its deletion would release that record a
second time).  The listing ends in undefined behaviour after one row, where
the claim has two rows and an empty table. -/
theorem listing_finished_pipeline_reads_released_command :
    pipelineJobs.map (fun e => (e.cmd.obj, e.pid, e.status))
      = [(1, 100, RUNNING), (2, 101, RUNNING)] ∧
    (pids pipelineJobs).Nodup ∧
    ownedObjects pipelineJobs = [1, 2, 2] ∧
    deleteProcessFrees [] pipelineJobs 100 = some [1, 2] ∧
    (printProcessList (fun _ => WaitResult.exitedOrSignaled) pipelineJobs []).control
      = Control.Fault ∧
    (printProcessList (fun _ => WaitResult.exitedOrSignaled) pipelineJobs []).events
      = [Event.printf "Index\tPID\tStatus\t\tCommand\n",
         Event.row 0 100 (some "TERMINATED") ["ls", "-l"]] ∧
    (printProcessList (fun _ => WaitResult.noSuchChild) pipelineJobs []).control
      = Control.Fault ∧
    (mainStep allExitedOS "procs" []
        { process_list := pipelineJobs, hist := emptyHistory, released := [] }).1
      = Control.Fault := by
  refine ⟨by decide, by decide, by decide, by decide, rfl, by decide, rfl, rfl⟩

/-- C4: after appending 21 pairwise distinct lines to the empty history,
`histCount` is 20, the lines that `recall(1)` .. `recall(20)` return are, as a
set, exactly the 20 most recently appended lines, and no `recall(n)` returns
the first appended line. -/
theorem history_keeps_newest_20_of_21 (lines : List String) (hlen : lines.length = 21)
    (hnd : lines.Nodup) :
    (appendAll lines).histCount = 20 ∧
    (∀ s : String,
      (∃ n : Int, 1 ≤ n ∧ n ≤ 20 ∧ recallLine (appendAll lines) n = some s)
        ↔ s ∈ lines.drop 1) ∧
    (∀ n : Int, recallLine (appendAll lines) n ≠ lines.head?) := by
  obtain ⟨hc, hset, hfirst⟩ := appendAll_21_recall lines hlen hnd
  refine ⟨hc, fun s => ⟨?_, ?_⟩, hfirst⟩
  · rintro ⟨n, _, _, hn⟩
    exact (hset s).mp ⟨n, hn⟩
  · intro hs
    obtain ⟨n, hn⟩ := (hset s).mpr hs
    obtain ⟨k, hk, rfl⟩ := recallLine_some_range _ n s hn
    rw [hc] at hk
    exact ⟨(k : Int) + 1, by omega, by omega, hn⟩

/-- Witness for C4: the lines `"cmd1"` .. `"cmd21"`. -/
theorem history_keeps_newest_20_of_21_witness :
    (cmdLines25.take 21).length = 21 ∧ (cmdLines25.take 21).Nodup ∧
    (appendAll (cmdLines25.take 21)).histCount = 20 ∧
    (∀ n : Int, recallLine (appendAll (cmdLines25.take 21)) n ≠ some "cmd1") :=
  ⟨by decide, by decide,
    (history_keeps_newest_20_of_21 (cmdLines25.take 21) (by decide) (by decide)).1,
    (history_keeps_newest_20_of_21 (cmdLines25.take 21) (by decide) (by decide)).2.2⟩

/-- C6 as stated fails: two `addProcess` calls with the same pid, applied to
the empty table, leave two entries with pid 5. -/
theorem duplicate_pid_after_two_adds :
    pids (applyOps [] [TableOp.add (sleepCmd 1) 5, TableOp.add (sleepCmd 2) 5]) = [5, 5] ∧
    ¬ (pids (applyOps [] [TableOp.add (sleepCmd 1) 5, TableOp.add (sleepCmd 2) 5])).Nodup := by
  constructor
  · rfl
  · decide

/-- C6 amended: when every `add` of the sequence uses a pid the table does not
hold at that moment, the table holds no pid twice after any number of the
operations. -/
theorem pids_nodup_of_fresh_adds (ops : List TableOp) (hf : addsFresh [] ops = true)
    (k : Nat) : (pids (applyOps [] (ops.take k))).Nodup :=
  applyOps_nodup (ops.take k) [] List.nodup_nil (addsFresh_take ops [] k hf)

/-- Witness for C6 amended: pid 5 is added again only after its removal. -/
theorem pids_nodup_of_fresh_adds_witness :
    addsFresh [] [TableOp.add (sleepCmd 1) 5, TableOp.remove 5, TableOp.add (sleepCmd 2) 5,
      TableOp.add (sleepCmd 3) 6] = true ∧
    (pids (applyOps [] ([TableOp.add (sleepCmd 1) 5, TableOp.remove 5, TableOp.add (sleepCmd 2) 5,
      TableOp.add (sleepCmd 3) 6].take 4))).Nodup :=
  ⟨by decide, pids_nodup_of_fresh_adds _ (by decide) 4⟩


/-- C7 as stated fails: after `kill 5` has marked the entry with pid 5
`TERMINATED`, the directive `wake 5` (its `kill` call succeeding) sets the
entry back to `RUNNING`, and the directive `suspend 5` sets it to `SUSPENDED`.
So does `wake 4294967301`, whose argument `atoi` turns into the `int` 5. -/
theorem wake_overwrites_terminated :
    (mainStep successfulKillOS "kill 5" [] oneJobShell).2.1.process_list
      = [{ cmd := sleepCmd 1, pid := 5, status := TERMINATED }] ∧
    (mainStep successfulKillOS "wake 5" []
        (mainStep successfulKillOS "kill 5" [] oneJobShell).2.1).2.1.process_list
      = [{ cmd := sleepCmd 1, pid := 5, status := RUNNING }] ∧
    (mainStep successfulKillOS "suspend 5" []
        (mainStep successfulKillOS "kill 5" [] oneJobShell).2.1).2.1.process_list
      = [{ cmd := sleepCmd 1, pid := 5, status := SUSPENDED }] ∧
    atoi (inputFrom "wake 4294967301" [] 5) = 5 ∧
    (mainStep successfulKillOS "wake 4294967301" []
        (mainStep successfulKillOS "kill 5" [] oneJobShell).2.1).2.1.process_list
      = [{ cmd := sleepCmd 1, pid := 5, status := RUNNING }] := by
  refine ⟨?_, ?_, ?_, ?_, ?_⟩ <;> rfl

/-- C7 amended: an entry whose status is `TERMINATED` keeps its status (and
its place, pid and command) under `updateProcessStatus(pid, status)` whenever
`pid` is not the entry's pid or `status` is `TERMINATED`, hence under the
`kill` directive and under `suspend` and `wake` whose pid argument (the `int`
that `atoi` returns) is not the entry's pid; and under every reconcile pass of
`updateProcessList`, whose `waitpid` call with `WNOHANG` alone reports neither
a stopped nor a continued child. -/
theorem terminated_entry_kept (table : List process) (i : Nat) (e : process)
    (hi : table[i]? = some e) (ht : e.status = TERMINATED) :
    (∀ (pid status : Int), pid ≠ e.pid ∨ status = TERMINATED →
      (updateProcessStatus table pid status)[i]? = some e) ∧
    (∀ (os : OS) (input : String) (behind : List Char) (hist : HistoryState)
        (released : List Nat),
      (dispatch input = Directive.kill →
        (mainStep os input behind
            { process_list := table, hist := hist, released := released }).2.1.process_list[i]?
          = some e) ∧
      (dispatch input = Directive.suspend → atoi (inputFrom input behind 8) ≠ e.pid →
        (mainStep os input behind
            { process_list := table, hist := hist, released := released }).2.1.process_list[i]?
          = some e) ∧
      (dispatch input = Directive.wake → atoi (inputFrom input behind 5) ≠ e.pid →
        (mainStep os input behind
            { process_list := table, hist := hist, released := released }).2.1.process_list[i]?
          = some e)) ∧
    (∀ q : Int → WaitResult, (∀ pid, reportedUnderWNOHANG (q pid) = true) →
      (updateProcessList q table).1[i]? = some e) := by
  have hupd : ∀ (pid status : Int), pid ≠ e.pid ∨ status = TERMINATED →
      (updateProcessStatus table pid status)[i]? = some e := by
    intro pid status h
    apply updateProcessStatus_getElem_of_ne table i e pid status hi
    rcases h with h | h
    · exact Or.inl h
    · exact Or.inr (h.trans ht.symm)
  refine ⟨hupd, ?_, ?_⟩
  · intro os input behind hist released
    refine ⟨?_, ?_, ?_⟩
    · intro hd
      simp only [mainStep, hd]
      split
      · exact hupd _ _ (Or.inr rfl)
      · exact hi
    · intro hd hp
      simp only [mainStep, hd]
      split
      · exact hupd _ _ (Or.inl hp)
      · exact hi
    · intro hd hp
      simp only [mainStep, hd]
      split
      · exact hupd _ _ (Or.inl hp)
      · exact hi
  · intro q hq
    have h := hq e.pid
    simp only [reportedUnderWNOHANG, Bool.and_eq_true, decide_eq_true_eq] at h
    exact updateProcessListFrom_keeps q table table i e hi ht h.1 h.2

/-- Witness for C7 amended: a reconcile pass reporting the child exited. -/
theorem terminated_entry_kept_witness :
    ([{ cmd := sleepCmd 1, pid := 5, status := TERMINATED }] : List process)[0]?
      = some { cmd := sleepCmd 1, pid := 5, status := TERMINATED } ∧
    (∀ pid : Int, reportedUnderWNOHANG ((fun _ : Int => WaitResult.exitedOrSignaled) pid)
      = true) ∧
    (updateProcessList (fun _ => WaitResult.exitedOrSignaled)
        [{ cmd := sleepCmd 1, pid := 5, status := TERMINATED }]).1[0]?
      = some { cmd := sleepCmd 1, pid := 5, status := TERMINATED } ∧
    (mainStep successfulKillOS "wake 4294967302" []
        { process_list := [{ cmd := sleepCmd 1, pid := 5, status := TERMINATED }],
          hist := emptyHistory, released := [] }).2.1.process_list[0]?
      = some { cmd := sleepCmd 1, pid := 5, status := TERMINATED } :=
  ⟨rfl, fun _ => rfl,
    (terminated_entry_kept [{ cmd := sleepCmd 1, pid := 5, status := TERMINATED }] 0
      { cmd := sleepCmd 1, pid := 5, status := TERMINATED } rfl rfl).2.2
      (fun _ => WaitResult.exitedOrSignaled) (fun _ => rfl),
    ((terminated_entry_kept [{ cmd := sleepCmd 1, pid := 5, status := TERMINATED }] 0
      { cmd := sleepCmd 1, pid := 5, status := TERMINATED } rfl rfl).2.1
      successfulKillOS "wake 4294967302" [] emptyHistory []).2.2 (by decide) (by decide)⟩

/-- C8 as stated fails: the line `kill 42` is dispatched to the `kill`
directive, its `kill()` call fails, and the iteration ends the shell with exit
status 1 instead of returning to the prompt. -/
theorem failed_kill_ends_shell :
    dispatch "kill 42" = Directive.kill ∧
    failingKillOS.kill (atoi (inputFrom "kill 42" [] 5)) Signal.SIGKILL = false ∧
    mainStep failingKillOS "kill 42" [] oneJobShell
      = (Control.Exit 1, oneJobShell, [Event.perror "kill(SIGKILL) failed\n"]) ∧
    (mainStep failingKillOS "kill 42" [] oneJobShell).1 ≠ Control.Continue := by
  refine ⟨by decide, rfl, rfl, ?_⟩
  intro h
  have h2 : (mainStep failingKillOS "kill 42" [] oneJobShell).1 = Control.Exit 1 := rfl
  rw [h2] at h
  cases h

/-- C8 amended: for every input line dispatched to `suspend`, `wake` or `kill`
whose `kill()` call fails, the iteration reports the error with `perror`,
leaves the job table and the history unchanged, and ends the shell process
with exit status 1 (`return 1` from `main`). -/
theorem failed_signal_exits_with_status_1 (os : OS) (input : String) (behind : List Char)
    (s : Shell)
    (h : (dispatch input = Directive.suspend ∧
            os.kill (atoi (inputFrom input behind 8)) Signal.SIGTSTP = false) ∨
         (dispatch input = Directive.wake ∧
            os.kill (atoi (inputFrom input behind 5)) Signal.SIGCONT = false) ∨
         (dispatch input = Directive.kill ∧
            os.kill (atoi (inputFrom input behind 5)) Signal.SIGKILL = false)) :
    ∃ message, mainStep os input behind s = (Control.Exit 1, s, [Event.perror message]) := by
  rcases h with ⟨hd, hk⟩ | ⟨hd, hk⟩ | ⟨hd, hk⟩
  · exact ⟨"kill(SIGTSTP) failed\n", by simp [mainStep, hd, hk]⟩
  · exact ⟨"kill(SIGCONT) failed\n", by simp [mainStep, hd, hk]⟩
  · exact ⟨"kill(SIGKILL) failed\n", by simp [mainStep, hd, hk]⟩

/-- Witness for C8 amended: the line `suspend 42` when `kill` fails. -/
theorem failed_signal_exits_with_status_1_witness :
    (dispatch "suspend 42" = Directive.suspend ∧
      failingKillOS.kill (atoi (inputFrom "suspend 42" [] 8)) Signal.SIGTSTP = false) ∧
    ∃ message, mainStep failingKillOS "suspend 42" [] oneJobShell
      = (Control.Exit 1, oneJobShell, [Event.perror message]) :=
  ⟨⟨by decide, rfl⟩,
    failed_signal_exits_with_status_1 failingKillOS "suspend 42" [] oneJobShell
      (Or.inl ⟨by decide, rfl⟩)⟩

/-- C9: for every shell state and every `n` with `n < 1` or `n > histCount`,
`executeHistoryCommand(n)` only prints that the command is not in history: it
returns to the loop with the history (slots, `oldest`, `newest`, `histCount`)
and the job table unchanged, whatever the operating system would have
answered, so no command is executed.  For `1 <= n <= histCount` that message is
not printed. -/
theorem executeHistoryCommand_out_of_range (os : OS) (n : Int) (s : Shell) :
    (n < 1 ∨ n > (s.hist.histCount : Int) →
      executeHistoryCommand os n s
        = (Control.Continue, s, [Event.printf "Command not in history.\n"])) ∧
    (1 ≤ n ∧ n ≤ (s.hist.histCount : Int) →
      Event.printf "Command not in history.\n" ∉ (executeHistoryCommand os n s).2.2) := by
  constructor
  · intro h
    simp only [executeHistoryCommand, if_pos h]
  · intro h
    have hn : ¬ (n < 1 ∨ n > (s.hist.histCount : Int)) := by omega
    simp only [executeHistoryCommand, if_neg hn]
    split
    · simp
    · split
      · simp
      · simp only [execute]
        split_ifs <;> try simp
        all_goals (split <;> (try split_ifs) <;> simp)

/-- Witness for C9: with three lines in the history, `!0` and `!4` are out of
range and `!2` is in range. -/
theorem executeHistoryCommand_out_of_range_witness :
    executeHistoryCommand failingKillOS 4 threeLineShell
      = (Control.Continue, threeLineShell, [Event.printf "Command not in history.\n"]) ∧
    executeHistoryCommand failingKillOS 0 threeLineShell
      = (Control.Continue, threeLineShell, [Event.printf "Command not in history.\n"]) ∧
    Event.printf "Command not in history.\n"
      ∉ (executeHistoryCommand failingKillOS 2 threeLineShell).2.2 :=
  ⟨(executeHistoryCommand_out_of_range failingKillOS 4 threeLineShell).1 (by decide),
   (executeHistoryCommand_out_of_range failingKillOS 0 threeLineShell).1 (by decide),
   (executeHistoryCommand_out_of_range failingKillOS 2 threeLineShell).2 (by decide)⟩

/-- C10: when pipe creation and the forks succeed, in the launching process
`execute` returns to the loop with the job table equal to the old table
followed by a new `RUNNING` entry holding stage 1 and the pid returned by the
first fork, followed, exactly when the command has a next stage, by a new
`RUNNING` entry holding stage 2 and the pid returned by the second fork. -/
theorem execute_registers_stages (pipeOk : Bool) (fork1 fork2 : Int) (pCmdLine : cmdLine)
    (table : List process)
    (hpipe : pCmdLine.next.isSome = true → pipeOk = true)
    (hfork1 : fork1 ≠ -1 ∧ fork1 ≠ 0)
    (hfork2 : pCmdLine.next.isSome = true → fork2 ≠ -1 ∧ fork2 ≠ 0) :
    (execute pipeOk fork1 fork2 pCmdLine table).1 = Control.Continue ∧
    (execute pipeOk fork1 fork2 pCmdLine table).2.1
      = table ++ { cmd := pCmdLine, pid := fork1, status := RUNNING } ::
          (match pCmdLine.next with
            | some next => [{ cmd := next, pid := fork2, status := RUNNING }]
            | none => []) := by
  unfold execute
  cases hnext : pCmdLine.next with
  | none =>
    simp [hfork1.1, hfork1.2, addProcess_eq_append]
  | some next =>
    have hp : pipeOk = true := hpipe (by simp [hnext])
    have h2 := hfork2 (by simp [hnext])
    simp [hp, hfork1.1, hfork1.2, h2.1, h2.2, addProcess_eq_append]

/-- Witness for C10: the pipeline `ls -l | tail -n 2` launched on the empty
table, the forks returning 100 and 101. -/
theorem execute_registers_stages_witness :
    (execute true 100 101 lsTailPipeline []).1 = Control.Continue ∧
    (execute true 100 101 lsTailPipeline []).2.1
      = [{ cmd := lsTailPipeline, pid := 100, status := RUNNING },
         { cmd := { obj := 2, arguments := ["tail", "-n", "2"], inputRedirect := none,
                    outputRedirect := none, blocking := true, next := none },
           pid := 101, status := RUNNING }] :=
  execute_registers_stages true 100 101 lsTailPipeline [] (fun _ => rfl)
    ⟨by decide, by decide⟩ (fun _ => ⟨by decide, by decide⟩)

end MyShell
